import Mathlib

/-!
Verification development for the capacitor session-state core
(`hud-core/src/state/{types,lock,store,resolver}.rs` and
`hud-hook/src/handle.rs`).

The Rust code is shallowly embedded:
* instants (`chrono::DateTime<Utc>`) are modelled as `Int` seconds; every
  function that calls `Utc::now()` in Rust takes the evaluation instant
  `now : Int` as an explicit argument;
* the lock registry (a directory of `<md5(key)>.lock` directories) is
  modelled as a list of `LockEnt` entries, each carrying the string `key`
  that was hashed to name the directory plus the parsed contents of its
  `pid` file and `meta.json` (md5 content-addressing is abstracted as key
  equality, i.e. the hash is treated as injective); PID liveness
  (`kill(pid, 0)`) is an oracle `alive : Nat → Bool`;
* the state store's `HashMap<String, SessionRecord>` is modelled as an
  association list; functions that iterate over `store.all_sessions()`
  take the enumeration as a `List SessionRecord`, and order-independence
  is proved where claimed;
* JSON documents (`serde_json::Value`) are modelled by the inductive
  `Jval`; serialization round-trips are stated at the JSON-value level.
-/

/-- SessionState from `src-tauri/src/types.rs` (shared `hud_core::types`):
`Working | Ready | Idle | Compacting | Waiting`. -/
inductive SessionState where
  | Working
  | Ready
  | Idle
  | Compacting
  | Waiting
deriving DecidableEq, Repr

/-- LastEvent from `hud-core/src/state/types.rs`: most recent hook event
metadata, all fields optional.  `at` is an instant (modelled as `Int`). -/
structure LastEvent where
  hook_event_name : Option String
  «at» : Option Int
  tool_name : Option String
  tool_use_id : Option String
  notification_type : Option String
  trigger : Option String
  source : Option String
  reason : Option String
  stop_hook_active : Option Bool
  agent_id : Option String
  agent_transcript_path : Option String
deriving DecidableEq, Repr

/-- SessionRecord from `hud-core/src/state/types.rs`. -/
structure SessionRecord where
  session_id : String
  state : SessionState
  cwd : String
  updated_at : Int
  state_changed_at : Int
  working_on : Option String
  transcript_path : Option String
  permission_mode : Option String
  project_dir : Option String
  last_event : Option LastEvent
  active_subagent_count : Nat
deriving DecidableEq, Repr

/-- `SessionRecord::is_stale` (types.rs): true iff the record was not
updated in the last 5 minutes, i.e. `now - updated_at > 300` seconds
(`age.num_seconds() > 300`). -/
def is_stale (now : Int) (r : SessionRecord) : Bool :=
  decide (300 < now - r.updated_at)

/-- One lock directory under the lock base: `key` is the string whose md5
names the directory (`<md5(key)>.lock`), and `pid`/`path`/`started` are the
parsed contents of its `pid` file and `meta.json`. -/
structure LockEnt where
  key : String
  pid : Nat
  path : String
  started : String
deriving DecidableEq, Repr

/-- The `LockInfo` value produced by `read_lock_info` in
`hud-core/src/state/lock.rs` (fields `pid`, `path`, `started`). -/
structure LockInfoR where
  pid : Nat
  path : String
  started : String
deriving DecidableEq, Repr

/-- Executable `str.starts_with(p)` (Rust): prefix test on the character
lists (UTF-8 byte order and scalar-value order agree). -/
def strStartsWith (s p : String) : Bool :=
  p.data.isPrefixOf s.data

/-- Executable `str.ends_with(p)` (Rust): suffix test on the character
lists. -/
def strEndsWith (s p : String) : Bool :=
  p.data.isSuffixOf s.data

/-- Lexicographic strict comparison on character lists, by unicode scalar
value — the order Rust's `String: Ord` induces (UTF-8 bytewise comparison
is scalar-value lexicographic). -/
def charListLt : List Char → List Char → Bool
  | [], [] => false
  | [], _ :: _ => true
  | _ :: _, [] => false
  | a :: as, b :: bs =>
    if a.toNat < b.toNat then true
    else if b.toNat < a.toNat then false
    else charListLt as bs

/-- Executable Rust `String` `<`. -/
def strLtB (a b : String) : Bool :=
  charListLt a.data b.data

/-- `check_lock_for_path` (lock.rs): hash the project path, look the lock
directory up by that name, and return its info if its PID is alive. -/
def check_lock_for_path (alive : Nat → Bool) (lock_base : List LockEnt)
    (project_path : String) : Option LockInfoR :=
  match lock_base.find? (fun e => e.key == project_path) with
  | none => none
  | some e => if alive e.pid then some ⟨e.pid, e.path, e.started⟩ else none

/-- The child-search string: `project_path` itself when it already ends in
`/`, else `project_path ++ "/"` (as computed in `find_child_lock` and
`find_matching_child_lock`). -/
def childPfx (project_path : String) : String :=
  if strEndsWith project_path "/" then project_path else project_path ++ "/"

/-- `find_child_lock` (lock.rs): first enumerated lock whose PID is alive
and whose meta path starts with the child-search string. -/
def find_child_lock (alive : Nat → Bool) (lock_base : List LockEnt)
    (project_path : String) : Option LockInfoR :=
  (lock_base.find? (fun e => alive e.pid && strStartsWith e.path (childPfx project_path))).map
    (fun e => ⟨e.pid, e.path, e.started⟩)

/-- `is_session_running` (lock.rs): exact lock match OR some child lock;
parent locks are deliberately not consulted. -/
def is_session_running (alive : Nat → Bool) (lock_base : List LockEnt)
    (project_path : String) : Bool :=
  (check_lock_for_path alive lock_base project_path).isSome
    || (find_child_lock alive lock_base project_path).isSome

/-- Rust `trim_end_matches('/')`: drop every trailing `/`. -/
def trimSlashes (s : String) : String :=
  String.mk ((s.data.reverse.dropWhile (fun c => c == '/')).reverse)

/-- One step of the `find_matching_child_lock` loop (lock.rs): keep the
matching live lock with the greatest `started` timestamp (ISO strings
compared lexicographically). -/
def fmcl_step (alive : Nat → Bool) (project_path_normalized pfx : String)
    (target_pid : Option Nat) (target_cwd : Option String)
    (best : Option LockInfoR) (e : LockEnt) : Option LockInfoR :=
  if alive e.pid then
    let info_path_normalized := trimSlashes e.path
    let is_match := info_path_normalized == project_path_normalized
      || strStartsWith e.path pfx
    if is_match then
      let pid_matches := match target_pid with | none => true | some p => p == e.pid
      let path_matches := match target_cwd with | none => true | some c => c == e.path
      if pid_matches && path_matches then
        match best with
        | none => some ⟨e.pid, e.path, e.started⟩
        | some current =>
          if strLtB current.started e.started then some ⟨e.pid, e.path, e.started⟩ else best
      else best
    else best
  else best

/-- `find_matching_child_lock` (lock.rs): among live locks whose meta path
equals the (slash-trimmed) query or starts with the child-search string,
optionally filtered by pid/cwd, return the newest by `started`. -/
def find_matching_child_lock (alive : Nat → Bool) (lock_base : List LockEnt)
    (project_path : String) (target_pid : Option Nat) (target_cwd : Option String) :
    Option LockInfoR :=
  lock_base.foldl
    (fmcl_step alive (trimSlashes project_path) (childPfx project_path) target_pid target_cwd)
    none

/-- MatchType from `find_record_for_lock_path` (resolver.rs):
`Parent = 0 < Child = 1 < Exact = 2`. -/
inductive MatchType where
  | Parent
  | Child
  | Exact
deriving DecidableEq, Repr

/-- The Rust discriminant of `MatchType`, giving its `Ord`. -/
def mtRank : MatchType → Nat
  | .Parent => 0
  | .Child => 1
  | .Exact => 2

/-- `Ord::max` on `MatchType` (used as `cur.max(mt)` in resolver.rs). -/
def mtMax (a b : MatchType) : MatchType :=
  if mtRank a ≤ mtRank b then b else a

/-- Path normalization used inside the resolver: `"/"` is preserved,
otherwise trailing slashes are trimmed. -/
def normalizePath (s : String) : String :=
  if s == "/" then "/" else trimSlashes s

/-- The match-type computation of `find_record_for_lock_path` (resolver.rs)
between one normalized record path and the normalized lock path. -/
def matchTypeOf (record_path_normalized lock_path_normalized : String) : Option MatchType :=
  if record_path_normalized == lock_path_normalized then some .Exact
  else if lock_path_normalized == "/" then
    if strStartsWith record_path_normalized "/" && record_path_normalized != "/" then
      some .Child
    else none
  else if record_path_normalized == "/" then
    if strStartsWith lock_path_normalized "/" && lock_path_normalized != "/" then
      some .Parent
    else none
  else if strStartsWith record_path_normalized (lock_path_normalized ++ "/") then some .Child
  else if strStartsWith lock_path_normalized (record_path_normalized ++ "/") then some .Parent
  else none

/-- The per-record candidate loop of `find_record_for_lock_path`: both
`record.cwd` and `record.project_dir` are matched against the lock path and
the strongest match type is kept. -/
def best_match_for_record (r : SessionRecord) (lock_path_normalized : String) :
    Option MatchType :=
  let m1 := matchTypeOf (normalizePath r.cwd) lock_path_normalized
  let m2 := match r.project_dir with
    | none => none
    | some pd => matchTypeOf (normalizePath pd) lock_path_normalized
  match m1, m2 with
  | none, m => m
  | some a, none => some a
  | some a, some b => some (mtMax a b)

/-- The `should_replace` decision of `find_record_for_lock_path`
(resolver.rs): non-stale beats stale; within equal staleness, higher
`updated_at`, then stronger match type, then lexicographically greater
`session_id`. -/
def should_replace (record : SessionRecord) (current_match_type : MatchType)
    (record_is_stale : Bool) (current : SessionRecord) (current_type : MatchType)
    (current_is_stale : Bool) : Bool :=
  if current_is_stale && !record_is_stale then true
  else if !current_is_stale && record_is_stale then false
  else
    decide (current.updated_at < record.updated_at)
      || (record.updated_at == current.updated_at
          && decide (mtRank current_type < mtRank current_match_type))
      || (record.updated_at == current.updated_at
          && current_match_type == current_type
          && strLtB current.session_id record.session_id)

/-- One iteration of the `find_record_for_lock_path` record loop. -/
def frfl_step (now : Int) (lock_path_normalized : String)
    (best : Option (SessionRecord × MatchType × Bool)) (record : SessionRecord) :
    Option (SessionRecord × MatchType × Bool) :=
  let record_is_stale := is_stale now record
  match best_match_for_record record lock_path_normalized with
  | none => best
  | some current_match_type =>
    match best with
    | none => some (record, current_match_type, record_is_stale)
    | some (current, current_type, current_is_stale) =>
      if should_replace record current_match_type record_is_stale
          current current_type current_is_stale then
        some (record, current_match_type, record_is_stale)
      else best

/-- `find_record_for_lock_path` (resolver.rs): best record (by the
`should_replace` priority) among those whose `cwd` or `project_dir`
matches the lock path. -/
def find_record_for_lock_path (now : Int) (records : List SessionRecord)
    (lock_path : String) : Option SessionRecord :=
  ((records.foldl (frfl_step now (normalizePath lock_path)) none).map (fun b => b.1))

/-- The exact-or-child test of `find_exact_or_child_record` (resolver.rs);
parent matches are deliberately not checked. -/
def matches_exact_or_child (project_normalized : String) (r : SessionRecord) : Bool :=
  let record_cwd_normalized := normalizePath r.cwd
  record_cwd_normalized == project_normalized
    || (if project_normalized == "/" then
          record_cwd_normalized != "/" && strStartsWith record_cwd_normalized "/"
        else strStartsWith record_cwd_normalized (project_normalized ++ "/"))

/-- One iteration of the `find_exact_or_child_record` loop: keep the
matching record with the greatest `updated_at` (first wins ties). -/
def feoc_step (project_normalized : String) (best : Option SessionRecord)
    (record : SessionRecord) : Option SessionRecord :=
  if matches_exact_or_child project_normalized record then
    match best with
    | none => some record
    | some current =>
      if current.updated_at < record.updated_at then some record else best
  else best

/-- `find_exact_or_child_record` (resolver.rs). -/
def find_exact_or_child_record (records : List SessionRecord)
    (project_path : String) : Option SessionRecord :=
  records.foldl (feoc_step (normalizePath project_path)) none

/-- `is_record_fresh` (resolver.rs): future timestamps are trusted, past
ones only within `FRESH_RECORD_TTL = 30` seconds. -/
def is_record_fresh (now : Int) (r : SessionRecord) : Bool :=
  let age_secs := now - r.updated_at
  if age_secs < 0 then true else decide (age_secs ≤ 30)

/-- ResolvedState from resolver.rs. -/
structure ResolvedState where
  state : SessionState
  session_id : Option String
  cwd : String
  is_from_lock : Bool
deriving DecidableEq, Repr

/-- `resolve_state_with_details` (resolver.rs): lock-authoritative primary
path, fresh-record fallback otherwise. -/
def resolve_state_with_details (alive : Nat → Bool) (now : Int)
    (lock_base : List LockEnt) (records : List SessionRecord)
    (project_path : String) : Option ResolvedState :=
  if is_session_running alive lock_base project_path then
    match find_matching_child_lock alive lock_base project_path none none with
    | none => none
    | some lock =>
      match find_record_for_lock_path now records lock.path with
      | some r =>
        if is_stale now r then some ⟨SessionState.Ready, some r.session_id, lock.path, true⟩
        else some ⟨r.state, some r.session_id, lock.path, true⟩
      | none => some ⟨SessionState.Ready, none, lock.path, true⟩
  else
    match find_exact_or_child_record records project_path with
    | none => none
    | some record =>
      if is_record_fresh now record && record.state != SessionState.Idle then
        some ⟨record.state, some record.session_id, record.cwd, false⟩
      else none

/-- `resolve_state` (resolver.rs): projection to the state. -/
def resolve_state (alive : Nat → Bool) (now : Int) (lock_base : List LockEnt)
    (records : List SessionRecord) (project_path : String) : Option SessionState :=
  (resolve_state_with_details alive now lock_base records project_path).map
    (fun r => r.state)

/-! ### State store (`hud-core/src/state/store.rs`)

The `HashMap<String, SessionRecord>` is modelled as an association list of
`(session_id, record)` entries. -/

/-- `StateStore::get_by_session_id`: exact key lookup. -/
def get_by_session_id : List (String × SessionRecord) → String → Option SessionRecord
  | [], _ => none
  | (k, v) :: t, session_id =>
    if k == session_id then some v else get_by_session_id t session_id

/-- `HashMap::insert`: replace the entry with this key, or add it. -/
def insertSession (sessions : List (String × SessionRecord)) (session_id : String)
    (r : SessionRecord) : List (String × SessionRecord) :=
  if sessions.any (fun p => p.1 == session_id) then
    sessions.map (fun p => if p.1 == session_id then (session_id, r) else p)
  else sessions ++ [(session_id, r)]

/-- `StateStore::update` (store.rs): upsert with `updated_at := now`,
`state_changed_at` carried over iff the state is unchanged, and all
optional metadata carried over from the existing record. -/
def store_update (now : Int) (sessions : List (String × SessionRecord))
    (session_id : String) (state : SessionState) (cwd : String) :
    List (String × SessionRecord) :=
  let existing := get_by_session_id sessions session_id
  let state_changed_at :=
    match existing with
    | some r => if r.state == state then r.state_changed_at else now
    | none => now
  insertSession sessions session_id
    { session_id := session_id
      state := state
      cwd := cwd
      updated_at := now
      state_changed_at := state_changed_at
      working_on := existing.bind (fun r => r.working_on)
      transcript_path := existing.bind (fun r => r.transcript_path)
      permission_mode := existing.bind (fun r => r.permission_mode)
      project_dir := existing.bind (fun r => r.project_dir)
      last_event := existing.bind (fun r => r.last_event)
      active_subagent_count := (existing.map (fun r => r.active_subagent_count)).getD 0 }

/-- `StateStore::remove` (store.rs). -/
def store_remove (sessions : List (String × SessionRecord)) (session_id : String) :
    List (String × SessionRecord) :=
  sessions.filter (fun p => !(p.1 == session_id))

/-! ### Hook processor (`hud-hook/src/handle.rs`) -/

/-- HookEvent from `hud_core::state` as consumed by `handle.rs` (the
enum's definition file is not part of the snapshot; the variants and their
payloads are exactly those matched in `process_event`). -/
inductive HookEvent where
  | SessionStart
  | UserPromptSubmit
  | PreToolUse
  | PostToolUse (tool_name : Option String) (file_path : Option String)
  | PermissionRequest
  | PreCompact
  | Notification (notification_type : String)
  | Stop (stop_hook_active : Bool)
  | SessionEnd
  | Unknown (event_name : String)
deriving DecidableEq, Repr

/-- Action from `handle.rs` (named `HookAction` here to avoid clashing
with Mathlib's `Action`). -/
inductive HookAction where
  | Upsert
  | Heartbeat
  | Delete
  | Skip
deriving DecidableEq, Repr

/-- `is_active_state` (handle.rs): Working, Waiting or Compacting. -/
def is_active_state (state : Option SessionState) : Bool :=
  match state with
  | some SessionState.Working => true
  | some SessionState.Waiting => true
  | some SessionState.Compacting => true
  | _ => false

/-- `extract_file_activity` (handle.rs): only Edit/Write/Read/NotebookEdit
produce a `(file_path, tool_name)` pair. -/
def extract_file_activity (tool_name : Option String) (file_path : Option String) :
    Option (String × String) :=
  match tool_name with
  | some t =>
    if t == "Edit" || t == "Write" || t == "Read" || t == "NotebookEdit" then
      file_path.map (fun f => (f, t))
    else none
  | none => none

/-- `tool_use_action` (handle.rs): heartbeat only when the current state is
exactly `Working`; otherwise upsert to `Working`. -/
def tool_use_action (current_state : Option SessionState)
    (file_activity : Option (String × String)) :
    HookAction × Option SessionState × Option (String × String) :=
  if current_state == some SessionState.Working then
    (HookAction.Heartbeat, none, file_activity)
  else
    (HookAction.Upsert, some SessionState.Working, file_activity)

/-- `process_event` (handle.rs): event → (action, new state, file activity). -/
def process_event (event : HookEvent) (current_state : Option SessionState) :
    HookAction × Option SessionState × Option (String × String) :=
  match event with
  | .SessionStart =>
    if is_active_state current_state then (HookAction.Skip, none, none)
    else (HookAction.Upsert, some SessionState.Ready, none)
  | .UserPromptSubmit => (HookAction.Upsert, some SessionState.Working, none)
  | .PreToolUse => tool_use_action current_state none
  | .PostToolUse tool_name file_path =>
    tool_use_action current_state (extract_file_activity tool_name file_path)
  | .PermissionRequest => (HookAction.Upsert, some SessionState.Waiting, none)
  | .PreCompact => (HookAction.Upsert, some SessionState.Compacting, none)
  | .Notification notification_type =>
    if notification_type == "idle_prompt" then
      (HookAction.Upsert, some SessionState.Ready, none)
    else (HookAction.Skip, none, none)
  | .Stop stop_hook_active =>
    if stop_hook_active then (HookAction.Skip, none, none)
    else (HookAction.Upsert, some SessionState.Ready, none)
  | .SessionEnd => (HookAction.Delete, none, none)
  | .Unknown _ => (HookAction.Skip, none, none)

/-- The store mutation performed by `run` (handle.rs) for a non-delete
event: on `Upsert`/`Heartbeat` the target state is
`new_state.unwrap_or_else(|| existing.map(|r| r.state).unwrap_or(Ready))`
and `store.update` is called; on `Skip` the store is untouched.  The
`Delete` arm (SessionEnd) also touches locks, tombstones and the activity
sidecar, which are outside this store-level model, so it is returned as
`none`. -/
def apply_event (now : Int) (event : HookEvent) (session_id cwd : String)
    (sessions : List (String × SessionRecord)) :
    Option (List (String × SessionRecord)) :=
  let current := get_by_session_id sessions session_id
  match process_event event (current.map (fun r => r.state)) with
  | (HookAction.Delete, _, _) => none
  | (HookAction.Skip, _, _) => some sessions
  | (_, new_state, _) =>
    let state :=
      match new_state with
      | some s => s
      | none =>
        match current with
        | some r => r.state
        | none => SessionState.Ready
    some (store_update now sessions session_id state cwd)

/-! ### JSON values and (de)serialization

`serde_json::Value` is modelled by `Jval`; serialization is stated at the
JSON-value level (`to_string`/`from_str` composing to the identity on
values is serde_json's contract, up to numeric equivalence).  Instants are
serialized as numbers, matching the `Int` abstraction of `DateTime<Utc>`. -/

/-- A JSON value. -/
inductive Jval where
  | jnull
  | jbool (b : Bool)
  | jnum (n : Int)
  | jstr (s : String)
  | jarr (items : List Jval)
  | jobj (fields : List (String × Jval))

/-- Field lookup in a JSON object (first occurrence, as `serde_json::Map`
and `Value::get` behave after parsing). -/
def jLookup : List (String × Jval) → String → Option Jval
  | [], _ => none
  | (k, v) :: t, key => if k == key then some v else jLookup t key

/-- `Value::get` on an arbitrary JSON value: `None` unless it is an
object. -/
def jGet (v : Jval) (key : String) : Option Jval :=
  match v with
  | .jobj fields => jLookup fields key
  | _ => none

/-- Executable `str.trim()` (Rust): strip leading and trailing
whitespace. -/
def strTrim (s : String) : String :=
  String.mk (((s.data.dropWhile Char.isWhitespace).reverse.dropWhile
    Char.isWhitespace).reverse)

/-- Executable decimal parse (`str.parse::<u32>()` on the digits-only
happy path; Rust additionally tolerates a leading `+`, which no pid file
contains). -/
def strToNat? (s : String) : Option Nat :=
  if !s.data.isEmpty && s.data.all (fun c => c.isDigit) then
    some (s.data.foldl (fun acc c => acc * 10 + (c.toNat - 48)) 0)
  else none

/-- `read_lock_info` (lock.rs): parse the `pid` file (`trim` then decimal
parse) and require `meta.json` to provide string fields `path` and
`started` — the `created` key is never consulted. -/
def read_lock_info (pid_content : String) (meta : Jval) : Option LockInfoR :=
  match strToNat? (strTrim pid_content) with
  | none => none
  | some pid =>
    match jGet meta "path" with
    | some (.jstr path) =>
      match jGet meta "started" with
      | some (.jstr started) => some ⟨pid, path, started⟩
      | _ => none
    | _ => none

/-- The `LockInfo` struct of `hud-core/src/state/types.rs`: serde fields
`pid`, `path`, optional `proc_started`, and `created` with
`#[serde(default, alias = "started")]`. -/
structure LockInfoSerde where
  pid : Nat
  path : String
  proc_started : Option Nat
  created : Option Nat
deriving DecidableEq, Repr

/-- Parse a `#[serde(default)] Option<u64>` field: absent or null → `none`,
non-negative number → `some`. -/
def parseOptNat (v : Option Jval) : Option (Option Nat) :=
  match v with
  | none => some none
  | some .jnull => some none
  | some (.jnum n) => if 0 ≤ n then some (some n.toNat) else none
  | some _ => none

/-- The serde deserializer of `LockInfo` (types.rs) at the JSON-value
level: `created` may arrive under either the `created` key or its alias
`started`; both at once is a duplicate-field error. -/
def deserializeLockInfo (v : Jval) : Option LockInfoSerde :=
  match v with
  | .jobj fields =>
    match jLookup fields "pid", jLookup fields "path" with
    | some (.jnum p), some (.jstr path) =>
      if 0 ≤ p then
        match parseOptNat (jLookup fields "proc_started") with
        | none => none
        | some proc_started =>
          match jLookup fields "created", jLookup fields "started" with
          | some _, some _ => none
          | some c, none =>
            (parseOptNat (some c)).map (fun created => ⟨p.toNat, path, proc_started, created⟩)
          | none, some c =>
            (parseOptNat (some c)).map (fun created => ⟨p.toNat, path, proc_started, created⟩)
          | none, none => some ⟨p.toNat, path, proc_started, none⟩
      else none
    | _, _ => none
  | _ => none

/-- Serialize an optional string (serde: `None` → `null`). -/
def serOptStr (o : Option String) : Jval :=
  match o with
  | none => .jnull
  | some s => .jstr s

/-- Serialize an optional instant. -/
def serOptInt (o : Option Int) : Jval :=
  match o with
  | none => .jnull
  | some n => .jnum n

/-- Serialize an optional boolean. -/
def serOptBool (o : Option Bool) : Jval :=
  match o with
  | none => .jnull
  | some b => .jbool b

/-- Parse a `#[serde(default)] Option<String>` field. -/
def parseOptStrField (v : Option Jval) : Option (Option String) :=
  match v with
  | none => some none
  | some .jnull => some none
  | some (.jstr s) => some (some s)
  | some _ => none

/-- Parse a `#[serde(default)]` optional instant field. -/
def parseOptIntField (v : Option Jval) : Option (Option Int) :=
  match v with
  | none => some none
  | some .jnull => some none
  | some (.jnum n) => some (some n)
  | some _ => none

/-- Parse a `#[serde(default)] Option<bool>` field. -/
def parseOptBoolField (v : Option Jval) : Option (Option Bool) :=
  match v with
  | none => some none
  | some .jnull => some none
  | some (.jbool b) => some (some b)
  | some _ => none

/-- Parse the `#[serde(default)] u32` subagent counter. -/
def parseCountField (v : Option Jval) : Option Nat :=
  match v with
  | none => some 0
  | some (.jnum n) => if 0 ≤ n then some n.toNat else none
  | some _ => none

/-- Serialize a `SessionState` (serde `rename_all = "lowercase"`). -/
def serState (s : SessionState) : Jval :=
  match s with
  | .Working => .jstr "working"
  | .Ready => .jstr "ready"
  | .Idle => .jstr "idle"
  | .Compacting => .jstr "compacting"
  | .Waiting => .jstr "waiting"

/-- Deserialize a `SessionState`. -/
def parseState (v : Jval) : Option SessionState :=
  match v with
  | .jstr "working" => some .Working
  | .jstr "ready" => some .Ready
  | .jstr "idle" => some .Idle
  | .jstr "compacting" => some .Compacting
  | .jstr "waiting" => some .Waiting
  | _ => none

/-- Serialize a `LastEvent` (types.rs field order). -/
def serLastEvent (ev : LastEvent) : Jval :=
  .jobj [("hook_event_name", serOptStr ev.hook_event_name),
         ("at", serOptInt ev.«at»),
         ("tool_name", serOptStr ev.tool_name),
         ("tool_use_id", serOptStr ev.tool_use_id),
         ("notification_type", serOptStr ev.notification_type),
         ("trigger", serOptStr ev.trigger),
         ("source", serOptStr ev.source),
         ("reason", serOptStr ev.reason),
         ("stop_hook_active", serOptBool ev.stop_hook_active),
         ("agent_id", serOptStr ev.agent_id),
         ("agent_transcript_path", serOptStr ev.agent_transcript_path)]

/-- Deserialize a `LastEvent` (all fields `#[serde(default)]`). -/
def deserializeLastEvent (v : Jval) : Option LastEvent :=
  match v with
  | .jobj fields =>
    match parseOptStrField (jLookup fields "hook_event_name"),
        parseOptIntField (jLookup fields "at"),
        parseOptStrField (jLookup fields "tool_name"),
        parseOptStrField (jLookup fields "tool_use_id"),
        parseOptStrField (jLookup fields "notification_type"),
        parseOptStrField (jLookup fields "trigger") with
    | some hook_event_name, some at_v, some tool_name, some tool_use_id,
        some notification_type, some trigger =>
      match parseOptStrField (jLookup fields "source"),
          parseOptStrField (jLookup fields "reason"),
          parseOptBoolField (jLookup fields "stop_hook_active"),
          parseOptStrField (jLookup fields "agent_id"),
          parseOptStrField (jLookup fields "agent_transcript_path") with
      | some source, some reason, some stop_hook_active, some agent_id,
          some agent_transcript_path =>
        some ⟨hook_event_name, at_v, tool_name, tool_use_id, notification_type,
              trigger, source, reason, stop_hook_active, agent_id,
              agent_transcript_path⟩
      | _, _, _, _, _ => none
    | _, _, _, _, _, _ => none
  | _ => none

/-- Parse a `#[serde(default)] Option<LastEvent>` field. -/
def parseOptEventField (v : Option Jval) : Option (Option LastEvent) :=
  match v with
  | none => some none
  | some .jnull => some none
  | some ev => (deserializeLastEvent ev).map some

/-- Serialize a `SessionRecord` (types.rs field order). -/
def serializeRecord (r : SessionRecord) : Jval :=
  .jobj [("session_id", .jstr r.session_id),
         ("state", serState r.state),
         ("cwd", .jstr r.cwd),
         ("updated_at", .jnum r.updated_at),
         ("state_changed_at", .jnum r.state_changed_at),
         ("working_on", serOptStr r.working_on),
         ("transcript_path", serOptStr r.transcript_path),
         ("permission_mode", serOptStr r.permission_mode),
         ("project_dir", serOptStr r.project_dir),
         ("last_event", match r.last_event with
                        | none => Jval.jnull
                        | some ev => serLastEvent ev),
         ("active_subagent_count", .jnum (Int.ofNat r.active_subagent_count))]

/-- Deserialize a `SessionRecord` (required fields `session_id`, `state`,
`cwd`, `updated_at`, `state_changed_at`; the rest default). -/
def deserializeRecord (v : Jval) : Option SessionRecord :=
  match v with
  | .jobj fields =>
    match jLookup fields "session_id", jLookup fields "cwd",
        jLookup fields "updated_at", jLookup fields "state_changed_at",
        (jLookup fields "state").bind parseState with
    | some (.jstr session_id), some (.jstr cwd), some (.jnum updated_at),
        some (.jnum state_changed_at), some state =>
      match parseOptStrField (jLookup fields "working_on"),
          parseOptStrField (jLookup fields "transcript_path"),
          parseOptStrField (jLookup fields "permission_mode"),
          parseOptStrField (jLookup fields "project_dir"),
          parseOptEventField (jLookup fields "last_event"),
          parseCountField (jLookup fields "active_subagent_count") with
      | some working_on, some transcript_path, some permission_mode,
          some project_dir, some last_event, some active_subagent_count =>
        some ⟨session_id, state, cwd, updated_at, state_changed_at, working_on,
              transcript_path, permission_mode, project_dir, last_event,
              active_subagent_count⟩
      | _, _, _, _, _, _ => none
    | _, _, _, _, _ => none
  | _ => none

/-- Serialize the sessions map entry-wise. -/
def serializeSessions (sessions : List (String × SessionRecord)) : List (String × Jval) :=
  sessions.map (fun p => (p.1, serializeRecord p.2))

/-- Deserialize the sessions map entry-wise (any bad record fails the
whole parse, as serde does). -/
def deserializeSessions : List (String × Jval) → Option (List (String × SessionRecord))
  | [] => some []
  | (k, v) :: t =>
    match deserializeRecord v, deserializeSessions t with
    | some r, some rest => some ((k, r) :: rest)
    | _, _ => none

/-- Serialize a `StoreFile` (store.rs): `{version, sessions}`. -/
def serializeStoreFile (sessions : List (String × SessionRecord)) : Jval :=
  .jobj [("version", .jnum 3), ("sessions", .jobj (serializeSessions sessions))]

/-- Deserialize a `StoreFile`. -/
def deserializeStoreFile (v : Jval) : Option (Nat × List (String × SessionRecord)) :=
  match v with
  | .jobj fields =>
    match jLookup fields "version", jLookup fields "sessions" with
    | some (.jnum ver), some (.jobj entries) =>
      if 0 ≤ ver then
        (deserializeSessions entries).map (fun sessions => (ver.toNat, sessions))
      else none
    | _, _ => none
  | _ => none

/-- In-memory `StateStore` (store.rs): sessions plus an optional backing
file path. -/
structure StateStore where
  sessions : List (String × SessionRecord)
  file_path : Option String
deriving DecidableEq, Repr

/-- What the state file can hold when `load` runs. -/
inductive FileContent where
  | absent
  | emptyFile
  | malformed
  | json (v : Jval)

/-- `StateStore::save` (store.rs): requires a backing path; serializes the
whole document (written via temp file + atomic rename).  `none` models the
`Err` on an in-memory store. -/
def store_save (s : StateStore) : Option Jval :=
  match s.file_path with
  | none => none
  | some _ => some (serializeStoreFile s.sessions)

/-- `StateStore::load` (store.rs): missing, empty or corrupt file and
non-3 versions all yield an empty store bound to the path. -/
def store_load (path : String) (content : FileContent) : StateStore :=
  match content with
  | .absent => ⟨[], some path⟩
  | .emptyFile => ⟨[], some path⟩
  | .malformed => ⟨[], some path⟩
  | .json v =>
    match deserializeStoreFile v with
    | some (ver, sessions) => if ver == 3 then ⟨sessions, some path⟩ else ⟨[], some path⟩
    | none => ⟨[], some path⟩

/-! ### The record-selection priority of `find_record_for_lock_path`

`keyLt a b` says `b` strictly beats `a` in the priority the resolver
implements: non-stale beats stale; within equal staleness higher
`updated_at` wins; then stronger match type; then lexicographically
greater `session_id`. -/

/-- Staleness class: non-stale records rank above stale ones. -/
def nsRank (now : Int) (r : SessionRecord) : Nat :=
  if is_stale now r then 0 else 1

/-- Rank of the best match type of a record against the lock path
(`Parent = 0 < Child = 1 < Exact = 2`; `0` when the record does not match,
which is only used for eligible records). -/
def matchRank (r : SessionRecord) (lock_path_normalized : String) : Nat :=
  match best_match_for_record r lock_path_normalized with
  | none => 0
  | some mt => mtRank mt

/-- The strict priority order of `find_record_for_lock_path`, as a
lexicographic comparison: staleness class, then `updated_at`, then match
type, then `session_id`. -/
def keyLt (now : Int) (lock_path_normalized : String) (a b : SessionRecord) : Prop :=
  nsRank now a < nsRank now b
    ∨ (nsRank now a = nsRank now b
        ∧ (a.updated_at < b.updated_at
            ∨ (a.updated_at = b.updated_at
                ∧ (matchRank a lock_path_normalized < matchRank b lock_path_normalized
                    ∨ (matchRank a lock_path_normalized = matchRank b lock_path_normalized
                        ∧ strLtB a.session_id b.session_id = true)))))

instance (now : Int) (lockN : String) (a b : SessionRecord) :
    Decidable (keyLt now lockN a b) := by
  unfold keyLt
  infer_instance

/-! ### Helper lemmas: the lexicographic string order -/

theorem charListLt_trans : ∀ (a b c : List Char), charListLt a b = true →
    charListLt b c = true → charListLt a c = true := by
  intro a
  induction a with
  | nil =>
    intro b c hab hbc
    cases b with
    | nil => simp [charListLt] at hab
    | cons y ys =>
      cases c with
      | nil => simp [charListLt] at hbc
      | cons z zs => simp [charListLt]
  | cons x xs ih =>
    intro b c hab hbc
    cases b with
    | nil => simp [charListLt] at hab
    | cons y ys =>
      cases c with
      | nil => simp [charListLt] at hbc
      | cons z zs =>
        simp only [charListLt] at hab hbc ⊢
        split_ifs at hab hbc ⊢ <;> first | rfl | omega | exact ih ys zs hab hbc

theorem charListLt_asymm : ∀ (a b : List Char), charListLt a b = true →
    charListLt b a = false := by
  intro a
  induction a with
  | nil =>
    intro b hab
    cases b with
    | nil => simp [charListLt] at hab
    | cons y ys => simp [charListLt]
  | cons x xs ih =>
    intro b hab
    cases b with
    | nil => simp [charListLt] at hab
    | cons y ys =>
      simp only [charListLt] at hab ⊢
      split_ifs at hab ⊢ <;> first | rfl | omega | exact ih ys hab

theorem charListLt_connex : ∀ (a b : List Char), charListLt a b = false →
    charListLt b a = false → a = b := by
  intro a
  induction a with
  | nil =>
    intro b hab _
    cases b with
    | nil => rfl
    | cons y ys => simp [charListLt] at hab
  | cons x xs ih =>
    intro b hab hba
    cases b with
    | nil => simp [charListLt] at hba
    | cons y ys =>
      simp only [charListLt] at hab hba
      by_cases h1 : x.toNat < y.toNat
      · simp [h1] at hab
      · by_cases h2 : y.toNat < x.toNat
        · simp [h1, h2] at hba
        · simp [h1, h2] at hab hba
          have hx : x = y := Char.eq_of_val_eq (UInt32.ext (by
            have hn : x.toNat = y.toNat := by omega
            simpa [Char.toNat] using hn))
          rw [hx, ih ys hab hba]

theorem strLtB_trans (a b c : String) (h1 : strLtB a b = true) (h2 : strLtB b c = true) :
    strLtB a c = true :=
  charListLt_trans a.data b.data c.data h1 h2

theorem strLtB_asymm (a b : String) (h : strLtB a b = true) : strLtB b a = false :=
  charListLt_asymm a.data b.data h

theorem strLtB_connex (a b : String) (h1 : strLtB a b = false) (h2 : strLtB b a = false) :
    a = b := by
  have : a.data = b.data := charListLt_connex a.data b.data h1 h2
  cases a; cases b; simp_all

/-! ### Helper lemmas: the selection priority is a strict total order -/

theorem keyLt_trans (now : Int) (L : String) (a b c : SessionRecord)
    (h1 : keyLt now L a b) (h2 : keyLt now L b c) : keyLt now L a c := by
  unfold keyLt at h1 h2 ⊢
  rcases h1 with h1 | ⟨e1, h1 | ⟨f1, h1 | ⟨g1, h1⟩⟩⟩ <;>
    rcases h2 with h2 | ⟨e2, h2 | ⟨f2, h2 | ⟨g2, h2⟩⟩⟩ <;>
    first
      | (left; omega)
      | (right; refine ⟨by omega, ?_⟩; left; omega)
      | (right; refine ⟨by omega, ?_⟩; right; refine ⟨by omega, ?_⟩; left; omega)
      | (right; refine ⟨by omega, ?_⟩; right; refine ⟨by omega, ?_⟩; right;
         refine ⟨by omega, ?_⟩; exact strLtB_trans _ _ _ h1 h2)

theorem keyLt_asymm (now : Int) (L : String) (a b : SessionRecord)
    (h1 : keyLt now L a b) (h2 : keyLt now L b a) : False := by
  unfold keyLt at h1 h2
  rcases h1 with h1 | ⟨e1, h1 | ⟨f1, h1 | ⟨g1, h1⟩⟩⟩ <;>
    rcases h2 with h2 | ⟨e2, h2 | ⟨f2, h2 | ⟨g2, h2⟩⟩⟩ <;>
    first
      | omega
      | (have hcontra := strLtB_asymm _ _ h1; simp_all)

theorem keyLt_total (now : Int) (L : String) (a b : SessionRecord)
    (hsid : a.session_id ≠ b.session_id) : keyLt now L a b ∨ keyLt now L b a := by
  unfold keyLt
  rcases Nat.lt_trichotomy (nsRank now a) (nsRank now b) with hn | hn | hn
  · exact Or.inl (Or.inl hn)
  · rcases Int.lt_trichotomy a.updated_at b.updated_at with hu | hu | hu
    · exact Or.inl (Or.inr ⟨hn, Or.inl hu⟩)
    · rcases Nat.lt_trichotomy (matchRank a L) (matchRank b L) with hm | hm | hm
      · exact Or.inl (Or.inr ⟨hn, Or.inr ⟨hu, Or.inl hm⟩⟩)
      · by_cases hs : strLtB a.session_id b.session_id = true
        · exact Or.inl (Or.inr ⟨hn, Or.inr ⟨hu, Or.inr ⟨hm, hs⟩⟩⟩)
        · by_cases hs2 : strLtB b.session_id a.session_id = true
          · exact Or.inr (Or.inr ⟨hn.symm, Or.inr ⟨hu.symm, Or.inr ⟨hm.symm, hs2⟩⟩⟩)
          · exact absurd (strLtB_connex _ _ (by simpa using hs) (by simpa using hs2)) hsid
      · exact Or.inr (Or.inr ⟨hn.symm, Or.inr ⟨hu.symm, Or.inl hm⟩⟩)
    · exact Or.inr (Or.inr ⟨hn.symm, Or.inl hu⟩)
  · exact Or.inr (Or.inl hn)

theorem keyLt_irrefl (now : Int) (L : String) (a : SessionRecord) :
    ¬ keyLt now L a a := by
  intro h
  exact keyLt_asymm now L a a h h

theorem mtRank_inj (x y : MatchType) (h : mtRank x = mtRank y) : x = y := by
  cases x <;> cases y <;> simp_all [mtRank]

theorem matchRank_eq (r : SessionRecord) (L : String) (mt : MatchType)
    (h : best_match_for_record r L = some mt) : matchRank r L = mtRank mt := by
  simp [matchRank, h]

theorem should_replace_iff (now : Int) (L : String) (r cur : SessionRecord)
    (mt mtc : MatchType)
    (hmt : best_match_for_record r L = some mt)
    (hmtc : best_match_for_record cur L = some mtc) :
    (should_replace r mt (is_stale now r) cur mtc (is_stale now cur) = true
      ↔ keyLt now L cur r) := by
  have hmr : matchRank r L = mtRank mt := matchRank_eq r L mt hmt
  have hmcr : matchRank cur L = mtRank mtc := matchRank_eq cur L mtc hmtc
  by_cases hc : is_stale now cur <;> by_cases hr : is_stale now r <;>
    simp [should_replace, keyLt, nsRank, hc, hr, hmr, hmcr, Bool.or_eq_true,
      Bool.and_eq_true, decide_eq_true_eq, beq_iff_eq]
  all_goals
    constructor
    · rintro ((h | ⟨he, hm⟩) | ⟨⟨he, hmm⟩, hs⟩)
      · exact Or.inl h
      · exact Or.inr ⟨he.symm, Or.inl hm⟩
      · exact Or.inr ⟨he.symm, Or.inr ⟨by rw [hmm], hs⟩⟩
    · rintro (h | ⟨he, hm | ⟨hmm, hs⟩⟩)
      · exact Or.inl (Or.inl h)
      · exact Or.inl (Or.inr ⟨he.symm, hm⟩)
      · exact Or.inr ⟨⟨he.symm, mtRank_inj mt mtc hmm.symm⟩, hs⟩

/-! ### The `find_record_for_lock_path` fold computes the priority maximum -/

theorem frfl_fold_some (now : Int) (L : String) :
    ∀ (l : List SessionRecord) (rb : SessionRecord) (mtb : MatchType) (sb : Bool),
    best_match_for_record rb L = some mtb → sb = is_stale now rb →
    (∀ r2 ∈ l, r2.session_id ≠ rb.session_id) →
    (l.map (fun r => r.session_id)).Nodup →
    ∃ rf mtf sf, l.foldl (frfl_step now L) (some (rb, mtb, sb)) = some (rf, mtf, sf) ∧
      best_match_for_record rf L = some mtf ∧ sf = is_stale now rf ∧
      (rf ∈ l ∨ rf = rb) ∧
      (rf = rb ∨ keyLt now L rb rf) ∧
      (∀ r2 ∈ l, (best_match_for_record r2 L).isSome → r2 ≠ rf → keyLt now L r2 rf) := by
  intro l
  induction l with
  | nil =>
    intro rb mtb sb hmtb hsb _ _
    exact ⟨rb, mtb, sb, rfl, hmtb, hsb, Or.inr rfl, Or.inl rfl, by simp⟩
  | cons r t ih =>
    intro rb mtb sb hmtb hsb hsids hnd
    subst hsb
    have hrsid : r.session_id ≠ rb.session_id := hsids r (List.mem_cons_self r t)
    have hsids_t : ∀ r2 ∈ t, r2.session_id ≠ rb.session_id :=
      fun r2 h2 => hsids r2 (List.mem_cons_of_mem r h2)
    have hnd_t : (t.map (fun x => x.session_id)).Nodup := by
      simpa using hnd.of_cons
    have hr_not_t : ∀ r2 ∈ t, r2.session_id ≠ r.session_id := by
      intro r2 h2 heq
      have : r.session_id ∈ t.map (fun x => x.session_id) :=
        heq ▸ List.mem_map_of_mem (fun x => x.session_id) h2
      simp only [List.map_cons, List.nodup_cons] at hnd
      exact hnd.1 this
    rw [List.foldl_cons]
    cases hm : best_match_for_record r L with
    | none =>
      have hstep : frfl_step now L (some (rb, mtb, is_stale now rb)) r
          = some (rb, mtb, is_stale now rb) := by
        simp [frfl_step, hm]
      rw [hstep]
      obtain ⟨rf, mtf, sf, hfold, hmtf, hsf, hmem, hge, hall⟩ :=
        ih rb mtb (is_stale now rb) hmtb rfl hsids_t hnd_t
      refine ⟨rf, mtf, sf, hfold, hmtf, hsf, ?_, hge, ?_⟩
      · rcases hmem with h | h
        · exact Or.inl (List.mem_cons_of_mem r h)
        · exact Or.inr h
      · intro r2 h2 helig hne
        rcases List.mem_cons.mp h2 with h2 | h2
        · subst h2
          simp [hm] at helig
        · exact hall r2 h2 helig hne
    | some mtr =>
      cases hrep : should_replace r mtr (is_stale now r) rb mtb (is_stale now rb) with
      | true =>
        have hstep : frfl_step now L (some (rb, mtb, is_stale now rb)) r
            = some (r, mtr, is_stale now r) := by
          simp [frfl_step, hm, hrep]
        rw [hstep]
        have hkb : keyLt now L rb r := (should_replace_iff now L r rb mtr mtb hm hmtb).mp hrep
        obtain ⟨rf, mtf, sf, hfold, hmtf, hsf, hmem, hge, hall⟩ :=
          ih r mtr (is_stale now r) hm rfl hr_not_t hnd_t
        refine ⟨rf, mtf, sf, hfold, hmtf, hsf, ?_, ?_, ?_⟩
        · rcases hmem with h | h
          · exact Or.inl (List.mem_cons_of_mem r h)
          · exact Or.inl (h ▸ List.mem_cons_self r t)
        · rcases hge with h | h
          · exact Or.inr (h ▸ hkb)
          · exact Or.inr (keyLt_trans now L rb r rf hkb h)
        · intro r2 h2 helig hne
          rcases List.mem_cons.mp h2 with h2 | h2
          · subst h2
            rcases hge with h | h
            · exact absurd h.symm hne
            · exact h
          · exact hall r2 h2 helig hne
      | false =>
        have hstep : frfl_step now L (some (rb, mtb, is_stale now rb)) r
            = some (rb, mtb, is_stale now rb) := by
          simp [frfl_step, hm, hrep]
        rw [hstep]
        have hnkb : ¬ keyLt now L rb r := by
          intro hk
          rw [← should_replace_iff now L r rb mtr mtb hm hmtb] at hk
          simp [hrep] at hk
        have hkrb : keyLt now L r rb := by
          rcases keyLt_total now L r rb hrsid with h | h
          · exact h
          · exact absurd h hnkb
        obtain ⟨rf, mtf, sf, hfold, hmtf, hsf, hmem, hge, hall⟩ :=
          ih rb mtb (is_stale now rb) hmtb rfl hsids_t hnd_t
        refine ⟨rf, mtf, sf, hfold, hmtf, hsf, ?_, hge, ?_⟩
        · rcases hmem with h | h
          · exact Or.inl (List.mem_cons_of_mem r h)
          · exact Or.inr h
        · intro r2 h2 helig hne
          rcases List.mem_cons.mp h2 with h2 | h2
          · subst h2
            rcases hge with h | h
            · exact h ▸ hkrb
            · exact keyLt_trans now L r2 rb rf hkrb h
          · exact hall r2 h2 helig hne

theorem frfl_fold_spec (now : Int) (L : String) :
    ∀ (l : List SessionRecord),
    (l.map (fun r => r.session_id)).Nodup →
    (l.foldl (frfl_step now L) none = none
        ∧ ∀ r ∈ l, best_match_for_record r L = none)
    ∨ (∃ rf mtf sf, l.foldl (frfl_step now L) none = some (rf, mtf, sf) ∧
        best_match_for_record rf L = some mtf ∧ rf ∈ l ∧
        ∀ r2 ∈ l, (best_match_for_record r2 L).isSome → r2 ≠ rf → keyLt now L r2 rf) := by
  intro l
  induction l with
  | nil => exact fun _ => Or.inl ⟨rfl, by simp⟩
  | cons r t ih =>
    intro hnd
    have hnd_t : (t.map (fun x => x.session_id)).Nodup := by
      simpa using hnd.of_cons
    have hr_not_t : ∀ r2 ∈ t, r2.session_id ≠ r.session_id := by
      intro r2 h2 heq
      have : r.session_id ∈ t.map (fun x => x.session_id) :=
        heq ▸ List.mem_map_of_mem (fun x => x.session_id) h2
      simp only [List.map_cons, List.nodup_cons] at hnd
      exact hnd.1 this
    rw [List.foldl_cons]
    cases hm : best_match_for_record r L with
    | none =>
      have hstep : frfl_step now L none r = none := by simp [frfl_step, hm]
      rw [hstep]
      rcases ih hnd_t with ⟨hn, hall⟩ | ⟨rf, mtf, sf, hfold, hmtf, hmem, hall⟩
      · refine Or.inl ⟨hn, ?_⟩
        intro r2 h2
        rcases List.mem_cons.mp h2 with h2 | h2
        · exact h2 ▸ hm
        · exact hall r2 h2
      · refine Or.inr ⟨rf, mtf, sf, hfold, hmtf, List.mem_cons_of_mem r hmem, ?_⟩
        intro r2 h2 helig hne
        rcases List.mem_cons.mp h2 with h2 | h2
        · subst h2
          simp [hm] at helig
        · exact hall r2 h2 helig hne
    | some mtr =>
      have hstep : frfl_step now L none r = some (r, mtr, is_stale now r) := by
        simp [frfl_step, hm]
      rw [hstep]
      obtain ⟨rf, mtf, sf, hfold, hmtf, hsf, hmem, hge, hall⟩ :=
        frfl_fold_some now L t r mtr (is_stale now r) hm rfl hr_not_t hnd_t
      refine Or.inr ⟨rf, mtf, sf, hfold, hmtf, ?_, ?_⟩
      · rcases hmem with h | h
        · exact List.mem_cons_of_mem r h
        · exact h ▸ List.mem_cons_self r t
      · intro r2 h2 helig hne
        rcases List.mem_cons.mp h2 with h2 | h2
        · subst h2
          rcases hge with h | h
          · exact absurd h.symm hne
          · exact h
        · exact hall r2 h2 helig hne

/-- C2: in the lock-authoritative path, record selection follows the strict
priority encoded by `keyLt` — any non-stale record beats any stale one;
within equal staleness higher `updated_at` wins, then stronger match type
(Exact > Child > Parent), then lexicographically greater `session_id` —
over the records whose `cwd` or `project_dir` matches the lock path, and
the selection is deterministic: it is invariant under permutation of the
record enumeration. -/
theorem find_record_priority_deterministic (now : Int)
    (records : List SessionRecord) (lock_path : String)
    (hnd : (records.map (fun r => r.session_id)).Nodup) :
    (∀ r, find_record_for_lock_path now records lock_path = some r →
        r ∈ records
        ∧ (best_match_for_record r (normalizePath lock_path)).isSome
        ∧ ∀ r2 ∈ records,
            (best_match_for_record r2 (normalizePath lock_path)).isSome →
            r2 ≠ r → keyLt now (normalizePath lock_path) r2 r)
    ∧ (find_record_for_lock_path now records lock_path = none ↔
        ∀ r ∈ records, best_match_for_record r (normalizePath lock_path) = none)
    ∧ (∀ records2, records.Perm records2 →
        find_record_for_lock_path now records2 lock_path
          = find_record_for_lock_path now records lock_path) := by
  classical
  refine ⟨?_, ?_, ?_⟩
  · intro r hr
    rcases frfl_fold_spec now (normalizePath lock_path) records hnd with
      ⟨hn, _⟩ | ⟨rf, mtf, sf, hfold, hmtf, hmem, hall⟩
    · rw [find_record_for_lock_path, hn] at hr
      simp at hr
    · rw [find_record_for_lock_path, hfold] at hr
      simp at hr
      subst hr
      exact ⟨hmem, by simp [hmtf], hall⟩
  · constructor
    · intro hn r hr
      rcases frfl_fold_spec now (normalizePath lock_path) records hnd with
        ⟨_, hall⟩ | ⟨rf, mtf, sf, hfold, _, _, _⟩
      · exact hall r hr
      · rw [find_record_for_lock_path, hfold] at hn
        simp at hn
    · intro hall
      rcases frfl_fold_spec now (normalizePath lock_path) records hnd with
        ⟨hn, _⟩ | ⟨rf, mtf, sf, hfold, hmtf, hmem, _⟩
      · rw [find_record_for_lock_path, hn]
        rfl
      · rw [hall rf hmem] at hmtf
        cases hmtf
  · intro records2 hperm
    have hnd2 : (records2.map (fun r => r.session_id)).Nodup :=
      ((hperm.map (fun r => r.session_id)).nodup_iff).mp hnd
    rcases frfl_fold_spec now (normalizePath lock_path) records hnd with
      ⟨hn, hall⟩ | ⟨rf, mtf, sf, hfold, hmtf, hmem, hall⟩
    · rcases frfl_fold_spec now (normalizePath lock_path) records2 hnd2 with
        ⟨hn2, _⟩ | ⟨rf2, mtf2, sf2, hfold2, hmtf2, hmem2, _⟩
      · rw [find_record_for_lock_path, find_record_for_lock_path, hn, hn2]
      · have : rf2 ∈ records := hperm.mem_iff.mpr hmem2
        rw [hall rf2 this] at hmtf2
        cases hmtf2
    · rcases frfl_fold_spec now (normalizePath lock_path) records2 hnd2 with
        ⟨hn2, hall2⟩ | ⟨rf2, mtf2, sf2, hfold2, hmtf2, hmem2, hall2⟩
      · rw [hall2 rf (hperm.mem_iff.mp hmem)] at hmtf
        cases hmtf
      · have heq : rf2 = rf := by
          by_contra hne
          have h1 : keyLt now (normalizePath lock_path) rf2 rf :=
            hall rf2 (hperm.mem_iff.mpr hmem2) (by simp [hmtf2]) hne
          have h2 : keyLt now (normalizePath lock_path) rf rf2 :=
            hall2 rf (hperm.mem_iff.mp hmem) (by simp [hmtf]) (fun h => hne h.symm)
          exact keyLt_asymm _ _ _ _ h1 h2
        rw [find_record_for_lock_path, find_record_for_lock_path, hfold, hfold2, heq]
        rfl

/-- Witness for C2 at a concrete two-record store: the fresher exact
record wins and the permuted enumeration agrees. -/
theorem find_record_priority_deterministic_witness :
    (([⟨"a", SessionState.Working, "/p", 5, 5, none, none, none, none, none, 0⟩,
       ⟨"b", SessionState.Ready, "/p", 9, 9, none, none, none, none, none, 0⟩]
        : List SessionRecord).map (fun r => r.session_id)).Nodup
    ∧ (∀ r, find_record_for_lock_path 10
          [⟨"a", SessionState.Working, "/p", 5, 5, none, none, none, none, none, 0⟩,
           ⟨"b", SessionState.Ready, "/p", 9, 9, none, none, none, none, none, 0⟩] "/p"
          = some r →
        r ∈ [⟨"a", SessionState.Working, "/p", 5, 5, none, none, none, none, none, 0⟩,
             ⟨"b", SessionState.Ready, "/p", 9, 9, none, none, none, none, none, 0⟩]
        ∧ (best_match_for_record r (normalizePath "/p")).isSome
        ∧ ∀ r2 ∈ [⟨"a", SessionState.Working, "/p", 5, 5, none, none, none, none, none, 0⟩,
                  ⟨"b", SessionState.Ready, "/p", 9, 9, none, none, none, none, none, 0⟩],
            (best_match_for_record r2 (normalizePath "/p")).isSome →
            r2 ≠ r → keyLt 10 (normalizePath "/p") r2 r) := by
  refine ⟨by decide, ?_⟩
  exact (find_record_priority_deterministic 10
    [⟨"a", SessionState.Working, "/p", 5, 5, none, none, none, none, none, 0⟩,
     ⟨"b", SessionState.Ready, "/p", 9, 9, none, none, none, none, none, 0⟩] "/p"
    (by decide)).1

/-! ### The fallback fold of `find_exact_or_child_record` -/

theorem feoc_fold (pN : String) :
    ∀ (l : List SessionRecord) (acc : Option SessionRecord),
    (∀ b, acc = some b → matches_exact_or_child pN b = true) →
    (l.foldl (feoc_step pN) acc = none
        → acc = none ∧ ∀ r ∈ l, matches_exact_or_child pN r = false)
    ∧ (∀ rec, l.foldl (feoc_step pN) acc = some rec →
        matches_exact_or_child pN rec = true
        ∧ (rec ∈ l ∨ acc = some rec)
        ∧ (∀ r ∈ l, matches_exact_or_child pN r = true → r.updated_at ≤ rec.updated_at)
        ∧ (∀ b, acc = some b → b.updated_at ≤ rec.updated_at)) := by
  intro l
  induction l with
  | nil =>
    intro acc hacc
    refine ⟨fun h => ⟨h, by simp⟩, ?_⟩
    intro rec h
    simp only [List.foldl_nil] at h
    exact ⟨hacc rec h, Or.inr h, by simp, fun b hb => by rw [hb] at h; cases h; exact le_refl _⟩
  | cons r t ih =>
    intro acc hacc
    rw [List.foldl_cons]
    cases hm : matches_exact_or_child pN r with
    | false =>
      have hstep : feoc_step pN acc r = acc := by simp [feoc_step, hm]
      rw [hstep]
      obtain ⟨ihn, ihs⟩ := ih acc hacc
      constructor
      · intro h
        obtain ⟨h1, h2⟩ := ihn h
        refine ⟨h1, ?_⟩
        intro r2 h2m
        rcases List.mem_cons.mp h2m with hh | hh
        · exact hh ▸ hm
        · exact h2 r2 hh
      · intro rec h
        obtain ⟨h1, h2, h3, h4⟩ := ihs rec h
        refine ⟨h1, ?_, ?_, h4⟩
        · rcases h2 with hh | hh
          · exact Or.inl (List.mem_cons_of_mem r hh)
          · exact Or.inr hh
        · intro r2 h2m hm2
          rcases List.mem_cons.mp h2m with hh | hh
          · rw [hh, hm] at hm2
            cases hm2
          · exact h3 r2 hh hm2
    | true =>
      have hne : ∃ b, feoc_step pN acc r = some b ∧ matches_exact_or_child pN b = true
          ∧ (b = r ∨ acc = some b)
          ∧ r.updated_at ≤ b.updated_at
          ∧ (∀ b0, acc = some b0 → b0.updated_at ≤ b.updated_at) := by
        rcases acc with _ | current
        · exact ⟨r, by simp [feoc_step, hm], hm, Or.inl rfl, le_refl _, by simp⟩
        · by_cases hlt : current.updated_at < r.updated_at
          · refine ⟨r, by simp [feoc_step, hm, hlt], hm, Or.inl rfl, le_refl _, ?_⟩
            intro b0 hb0
            cases hb0
            omega
          · refine ⟨current, by simp [feoc_step, hm, hlt], hacc current rfl, Or.inr rfl,
              by omega, ?_⟩
            intro b0 hb0
            cases hb0
            exact le_refl _
      obtain ⟨b, hstep, hbm, hbsrc, hrb, hb0⟩ := hne
      rw [hstep]
      obtain ⟨ihn, ihs⟩ := ih (some b) (fun b2 hb2 => by cases hb2; exact hbm)
      constructor
      · intro h
        obtain ⟨h1, _⟩ := ihn h
        cases h1
      · intro rec h
        obtain ⟨h1, h2, h3, h4⟩ := ihs rec h
        have hbrec : b.updated_at ≤ rec.updated_at := h4 b rfl
        refine ⟨h1, ?_, ?_, ?_⟩
        · rcases h2 with hh | hh
          · exact Or.inl (List.mem_cons_of_mem r hh)
          · cases hh
            rcases hbsrc with hb | hb
            · exact Or.inl (hb ▸ List.mem_cons_self r t)
            · exact Or.inr hb
        · intro r2 h2m hm2
          rcases List.mem_cons.mp h2m with hh | hh
          · subst hh
            omega
          · exact h3 r2 hh hm2
        · intro b0 hb00
          exact le_trans (hb0 b0 hb00) hbrec

/-- C5: with no live exact-or-child lock, the resolver answers from the
store alone: it returns a result iff some record's `cwd` matches the query
exactly or as a child (parent matches are never consulted) and the
selected candidate — which has maximal `updated_at` among the matches — is
fresh (within 30 seconds) and not `Idle`; the result then carries that
record's state, session id and cwd with `is_from_lock = false`. -/
theorem fallback_fresh_record_spec (alive : Nat → Bool) (now : Int)
    (lock_base : List LockEnt) (records : List SessionRecord) (project_path : String)
    (hrun : is_session_running alive lock_base project_path = false) :
    (find_exact_or_child_record records project_path = none ↔
        ∀ r ∈ records, matches_exact_or_child (normalizePath project_path) r = false)
    ∧ (∀ rec, find_exact_or_child_record records project_path = some rec →
        rec ∈ records
        ∧ matches_exact_or_child (normalizePath project_path) rec = true
        ∧ ∀ r ∈ records, matches_exact_or_child (normalizePath project_path) r = true →
            r.updated_at ≤ rec.updated_at)
    ∧ (∀ res, resolve_state_with_details alive now lock_base records project_path = some res
        ↔ ∃ rec, find_exact_or_child_record records project_path = some rec
            ∧ is_record_fresh now rec = true
            ∧ rec.state ≠ SessionState.Idle
            ∧ res = ⟨rec.state, some rec.session_id, rec.cwd, false⟩) := by
  obtain ⟨hnone, hsome⟩ :=
    feoc_fold (normalizePath project_path) records none (by simp)
  have hdef : resolve_state_with_details alive now lock_base records project_path
      = match find_exact_or_child_record records project_path with
        | none => none
        | some record =>
          if is_record_fresh now record && record.state != SessionState.Idle then
            some ⟨record.state, some record.session_id, record.cwd, false⟩
          else none := by
    rw [resolve_state_with_details, hrun]
    simp
  refine ⟨⟨fun h => (hnone h).2, fun hall => ?_⟩, ?_, ?_⟩
  · cases hf : find_exact_or_child_record records project_path with
    | none => rfl
    | some rec =>
      obtain ⟨h1, h2, _, _⟩ := hsome rec hf
      rcases h2 with h2 | h2
      · rw [hall rec h2] at h1
        cases h1
      · cases h2
  · intro rec hf
    obtain ⟨h1, h2, h3, _⟩ := hsome rec hf
    rcases h2 with h2 | h2
    · exact ⟨h2, h1, h3⟩
    · cases h2
  · intro res
    rw [hdef]
    cases hf : find_exact_or_child_record records project_path with
    | none =>
      simp
    | some rec =>
      by_cases hcond : (is_record_fresh now rec && rec.state != SessionState.Idle) = true
      · obtain ⟨hfresh, hnidle⟩ := Bool.and_eq_true_iff.mp hcond
        simp only [hcond, if_true]
        constructor
        · intro h
          refine ⟨rec, rfl, hfresh, by simpa using hnidle, ?_⟩
          cases h
          rfl
        · rintro ⟨rec2, hrec2, _, _, hres⟩
          cases hrec2
          rw [hres]
      · simp only [hcond, if_false]
        constructor
        · intro h
          cases h
        · rintro ⟨rec2, hrec2, hfresh, hnidle, _⟩
          cases hrec2
          rw [hfresh] at hcond
          simp [bne_iff_ne] at hcond
          exact absurd hcond hnidle

/-- Witness for C5 at a concrete no-lock configuration: one fresh Working
record at the queried path. -/
theorem fallback_fresh_record_spec_witness :
    is_session_running (fun _ => false) [] "/p" = false
    ∧ (∀ res, resolve_state_with_details (fun _ => false) 5 []
          [⟨"s1", SessionState.Working, "/p", 0, 0, none, none, none, none, none, 0⟩] "/p"
          = some res
        ↔ ∃ rec, find_exact_or_child_record
            [⟨"s1", SessionState.Working, "/p", 0, 0, none, none, none, none, none, 0⟩] "/p"
            = some rec
            ∧ is_record_fresh 5 rec = true
            ∧ rec.state ≠ SessionState.Idle
            ∧ res = ⟨rec.state, some rec.session_id, rec.cwd, false⟩) :=
  ⟨by decide,
   (fallback_fresh_record_spec (fun _ => false) 5 []
     [⟨"s1", SessionState.Working, "/p", 0, 0, none, none, none, none, none, 0⟩] "/p"
     (by decide)).2.2⟩

/-- C10: a record whose `updated_at` lies in the future is always fresh
(`is_record_fresh` returns true for any negative age, however large), so
with no live lock a future-dated exact-or-child match that is not Idle is
returned by the resolver, no matter how far ahead its timestamp is. -/
theorem future_record_always_fresh (alive : Nat → Bool) (now : Int)
    (lock_base : List LockEnt) (records : List SessionRecord) (project_path : String)
    (r : SessionRecord)
    (hrun : is_session_running alive lock_base project_path = false)
    (hmem : r ∈ records)
    (hmatch : matches_exact_or_child (normalizePath project_path) r = true)
    (hmax : ∀ r2 ∈ records, matches_exact_or_child (normalizePath project_path) r2 = true →
        r2 ≠ r → r2.updated_at < r.updated_at)
    (hfut : now < r.updated_at)
    (hidle : r.state ≠ SessionState.Idle) :
    is_record_fresh now r = true
    ∧ resolve_state_with_details alive now lock_base records project_path
        = some ⟨r.state, some r.session_id, r.cwd, false⟩ := by
  have hneg : now - r.updated_at < 0 := by omega
  have hfresh : is_record_fresh now r = true := by
    simp [is_record_fresh, hneg]
  obtain ⟨hnone, hsome⟩ :=
    feoc_fold (normalizePath project_path) records none (by simp)
  have hfind : find_exact_or_child_record records project_path = some r := by
    cases hf : find_exact_or_child_record records project_path with
    | none =>
      have := (hnone hf).2 r hmem
      rw [hmatch] at this
      cases this
    | some rec =>
      obtain ⟨h1, h2, h3, _⟩ := hsome rec hf
      rcases h2 with h2 | h2
      · by_cases heq : rec = r
        · rw [heq]
        · have hlt := hmax rec h2 h1 heq
          have hle := h3 r hmem hmatch
          omega
      · cases h2
  have hdef : resolve_state_with_details alive now lock_base records project_path
      = match find_exact_or_child_record records project_path with
        | none => none
        | some record =>
          if is_record_fresh now record && record.state != SessionState.Idle then
            some ⟨record.state, some record.session_id, record.cwd, false⟩
          else none := by
    rw [resolve_state_with_details, hrun]
    simp
  refine ⟨hfresh, ?_⟩
  rw [hdef, hfind]
  have hni : (r.state != SessionState.Idle) = true := by
    simpa [bne_iff_ne] using hidle
  simp [hfresh, hni]

/-- Witness for C10: a record dated far in the future (year ~33658) is
returned as fresh. -/
theorem future_record_always_fresh_witness :
    is_session_running (fun _ => false) [] "/p" = false
    ∧ (⟨"s1", SessionState.Working, "/p", 1000000000000, 0,
        none, none, none, none, none, 0⟩ : SessionRecord)
        ∈ [(⟨"s1", SessionState.Working, "/p", 1000000000000, 0,
            none, none, none, none, none, 0⟩ : SessionRecord)]
    ∧ resolve_state_with_details (fun _ => false) 0 []
        [⟨"s1", SessionState.Working, "/p", 1000000000000, 0,
          none, none, none, none, none, 0⟩] "/p"
        = some ⟨SessionState.Working, some "s1", "/p", false⟩ := by
  refine ⟨by decide, by decide, ?_⟩
  have h := future_record_always_fresh (fun _ => false) 0 []
    [⟨"s1", SessionState.Working, "/p", 1000000000000, 0,
      none, none, none, none, none, 0⟩] "/p"
    ⟨"s1", SessionState.Working, "/p", 1000000000000, 0,
      none, none, none, none, none, 0⟩
    (by decide) (by decide) (by decide)
    (by
      intro r2 h2 _ hne
      rcases List.mem_singleton.mp h2 with rfl
      exact absurd rfl hne)
    (by decide) (by decide)
  exact h.2

/-- C4: whenever a live exact-or-child lock exists and the resolver
returns a result, that result has `cwd` equal to the selected lock's path
and `is_from_lock = true`, with state/session derived from the best
record: none → Ready/None; stale → Ready with the record's identity;
fresh → the record's state and identity. -/
theorem lock_authoritative_shape (alive : Nat → Bool) (now : Int)
    (lock_base : List LockEnt) (records : List SessionRecord)
    (project_path : String) (res : ResolvedState)
    (hrun : is_session_running alive lock_base project_path = true)
    (hres : resolve_state_with_details alive now lock_base records project_path
      = some res) :
    ∃ lock, find_matching_child_lock alive lock_base project_path none none = some lock
      ∧ res.cwd = lock.path ∧ res.is_from_lock = true
      ∧ ((find_record_for_lock_path now records lock.path = none
            ∧ res.state = SessionState.Ready ∧ res.session_id = none)
         ∨ (∃ rec, find_record_for_lock_path now records lock.path = some rec
              ∧ ((is_stale now rec = true ∧ res.state = SessionState.Ready
                    ∧ res.session_id = some rec.session_id)
                 ∨ (is_stale now rec = false ∧ res.state = rec.state
                    ∧ res.session_id = some rec.session_id)))) := by
  rw [resolve_state_with_details, hrun] at hres
  simp only [if_true] at hres
  cases hlock : find_matching_child_lock alive lock_base project_path none none with
  | none =>
    simp [hlock] at hres
  | some lock =>
    simp only [hlock] at hres
    cases hrec : find_record_for_lock_path now records lock.path with
    | none =>
      simp [hrec] at hres
      subst hres
      exact ⟨lock, rfl, rfl, rfl, Or.inl ⟨hrec, rfl, rfl⟩⟩
    | some rec =>
      simp only [hrec] at hres
      cases hstale : is_stale now rec with
      | true =>
        simp [hstale] at hres
        subst hres
        exact ⟨lock, rfl, rfl, rfl, Or.inr ⟨rec, hrec, Or.inl ⟨hstale, rfl, rfl⟩⟩⟩
      | false =>
        simp [hstale] at hres
        subst hres
        exact ⟨lock, rfl, rfl, rfl, Or.inr ⟨rec, hrec, Or.inr ⟨hstale, rfl, rfl⟩⟩⟩

/-- Witness for C4: a live lock at `/project` with a fresh Working record. -/
theorem lock_authoritative_shape_witness :
    is_session_running (fun _ => true) [⟨"/project", 7, "/project", "t"⟩] "/project" = true
    ∧ ∃ lock, find_matching_child_lock (fun _ => true)
          [⟨"/project", 7, "/project", "t"⟩] "/project" none none = some lock
        ∧ (⟨SessionState.Working, some "s1", "/project", true⟩ : ResolvedState).cwd = lock.path
        ∧ (⟨SessionState.Working, some "s1", "/project", true⟩ : ResolvedState).is_from_lock
            = true
        ∧ ((find_record_for_lock_path 5
              [⟨"s1", SessionState.Working, "/project", 0, 0,
                none, none, none, none, none, 0⟩] lock.path = none
              ∧ (⟨SessionState.Working, some "s1", "/project", true⟩
                  : ResolvedState).state = SessionState.Ready
              ∧ (⟨SessionState.Working, some "s1", "/project", true⟩
                  : ResolvedState).session_id = none)
           ∨ (∃ rec, find_record_for_lock_path 5
                [⟨"s1", SessionState.Working, "/project", 0, 0,
                  none, none, none, none, none, 0⟩] lock.path = some rec
              ∧ ((is_stale 5 rec = true
                    ∧ (⟨SessionState.Working, some "s1", "/project", true⟩
                        : ResolvedState).state = SessionState.Ready
                    ∧ (⟨SessionState.Working, some "s1", "/project", true⟩
                        : ResolvedState).session_id = some rec.session_id)
                 ∨ (is_stale 5 rec = false
                    ∧ (⟨SessionState.Working, some "s1", "/project", true⟩
                        : ResolvedState).state = rec.state
                    ∧ (⟨SessionState.Working, some "s1", "/project", true⟩
                        : ResolvedState).session_id = some rec.session_id)))) :=
  ⟨by decide,
   lock_authoritative_shape (fun _ => true) 5 [⟨"/project", 7, "/project", "t"⟩]
     [⟨"s1", SessionState.Working, "/project", 0, 0, none, none, none, none, none, 0⟩]
     "/project" ⟨SessionState.Working, some "s1", "/project", true⟩
     (by decide) (by decide)⟩

/-- C1 (scenario S1 evaluated on the code): live lock at `/p/capacitor`;
`capacitor-session` is a stale exact match (updated 600 s before `now`)
and `home-session` a fresh parent match.  The resolver returns
`Working`/`home-session` — NOT `Ready`/`capacitor-session` as S1 (and the
repository's own integration test
`invariant_exact_match_beats_fresher_parent`) require — because
`find_record_for_lock_path` prefers any non-stale record over any stale
one before match type is considered.  Both enumeration orders agree. -/
theorem s1_stale_exact_loses_to_fresh_parent :
    resolve_state_with_details (fun _ => true) 600
      [⟨"/p/capacitor", 1, "/p/capacitor", "2024-01-01T00:00:00Z"⟩]
      [⟨"capacitor-session", SessionState.Ready, "/p/capacitor", 0, 0,
        none, none, none, none, none, 0⟩,
       ⟨"home-session", SessionState.Working, "/p", 600, 600,
        none, none, none, none, none, 0⟩]
      "/p/capacitor"
      = some ⟨SessionState.Working, some "home-session", "/p/capacitor", true⟩
    ∧ resolve_state_with_details (fun _ => true) 600
      [⟨"/p/capacitor", 1, "/p/capacitor", "2024-01-01T00:00:00Z"⟩]
      [⟨"home-session", SessionState.Working, "/p", 600, 600,
        none, none, none, none, none, 0⟩,
       ⟨"capacitor-session", SessionState.Ready, "/p/capacitor", 0, 0,
        none, none, none, none, none, 0⟩]
      "/p/capacitor"
      = some ⟨SessionState.Working, some "home-session", "/p/capacitor", true⟩
    ∧ is_stale 600 ⟨"capacitor-session", SessionState.Ready, "/p/capacitor", 0, 0,
        none, none, none, none, none, 0⟩ = true
    ∧ is_stale 600 ⟨"home-session", SessionState.Working, "/p", 600, 600,
        none, none, none, none, none, 0⟩ = false
    ∧ some (⟨SessionState.Working, some "home-session", "/p/capacitor", true⟩ : ResolvedState)
      ≠ some (⟨SessionState.Ready, some "capacitor-session", "/p/capacitor", true⟩
        : ResolvedState) := by
  decide

/-- C3 counterexample: a live lock keyed by and claiming path `/p`,
queried at `"/"`.  `is_session_running` is true (for a query already
ending in `/` the child-search string is the query itself, so `/p` counts
as a child of `/`), but the claim's condition `X = P ∨ X starts with
P ++ "/"` is false (`/p` does not start with `//`). -/
theorem is_running_iff_counterexample :
    is_session_running (fun _ => true) [⟨"/p", 1, "/p", "t"⟩] "/" = true
    ∧ ("/p" == "/" || strStartsWith "/p" ("/" ++ "/")) = false := by
  decide

/-- C3 amended: for a live path-keyed lock at `X`, `is_session_running`
answers `true` at query `P` iff `X = P` or `X` starts with the
child-search string (`P ++ "/"`, except that a `P` already ending in `/`
is used as is) — in particular a parent lock never makes a child path
count as running, and siblings never match. -/
theorem is_running_iff_amended (alive : Nat → Bool) (pid : Nat) (ts X P : String)
    (halive : alive pid = true) :
    is_session_running alive [⟨X, pid, X, ts⟩] P
      = (X == P || strStartsWith X (childPfx P)) := by
  cases hxp : X == P <;> cases hch : strStartsWith X (childPfx P) <;>
    simp [is_session_running, check_lock_for_path, find_child_lock, List.find?,
      hxp, hch, halive]

/-- Witness for C3's amended theorem: a live child lock at `/a/b` answers
the query `/a`. -/
theorem is_running_iff_amended_witness :
    (fun _ : Nat => true) 1 = true
    ∧ is_session_running (fun _ => true) [⟨"/a/b", 1, "/a/b", "t"⟩] "/a"
      = ("/a/b" == "/a" || strStartsWith "/a/b" (childPfx "/a")) :=
  ⟨rfl, is_running_iff_amended (fun _ => true) 1 "t" "/a/b" "/a" rfl⟩

/-- C7 (code bug evaluated): `read_lock_info` — the function every lock
operation uses to read `meta.json` — returns `none` for a meta document
whose creation instant is stored under `created`, so such a lock is
invisible (never live, never matched), while the documented serde schema
`LockInfo` (types.rs) accepts `created` and its legacy alias `started`
interchangeably; `read_lock_info` accepts only `started`. -/
theorem read_lock_info_created_rejected :
    read_lock_info "1"
      (.jobj [("pid", .jnum 1), ("path", .jstr "/p"), ("created", .jnum 100)]) = none
    ∧ read_lock_info "1"
      (.jobj [("pid", .jnum 1), ("path", .jstr "/p"), ("started", .jstr "t")])
      = some ⟨1, "/p", "t"⟩
    ∧ deserializeLockInfo
      (.jobj [("pid", .jnum 1), ("path", .jstr "/p"), ("created", .jnum 100)])
      = some ⟨1, "/p", none, some 100⟩
    ∧ deserializeLockInfo
      (.jobj [("pid", .jnum 1), ("path", .jstr "/p"), ("started", .jnum 100)])
      = some ⟨1, "/p", none, some 100⟩ := by
  decide

/-! ### Store lookup/insert lemmas -/

theorem get_map_replace (sid : String) (r : SessionRecord) :
    ∀ (l : List (String × SessionRecord)),
    l.any (fun p => p.1 == sid) = true →
    get_by_session_id (l.map (fun p => if p.1 == sid then (sid, r) else p)) sid = some r := by
  intro l
  induction l with
  | nil => intro h; cases h
  | cons h t ih =>
    intro hany
    rw [List.map_cons]
    by_cases hh : (h.1 == sid) = true
    · rw [if_pos hh]
      simp [get_by_session_id]
    · rw [if_neg hh]
      have hh2 : (h.1 == sid) = false := by simpa using hh
      simp only [get_by_session_id, hh2, Bool.false_eq_true, if_false]
      apply ih
      simpa [List.any_cons, hh2] using hany

theorem get_map_replace_other (sid sid2 : String) (r : SessionRecord) (hne : sid2 ≠ sid) :
    ∀ (l : List (String × SessionRecord)),
    get_by_session_id (l.map (fun p => if p.1 == sid then (sid, r) else p)) sid2
      = get_by_session_id l sid2 := by
  have hss : (sid == sid2) = false := by
    simp only [beq_eq_false_iff_ne, ne_eq]
    exact fun h => hne h.symm
  intro l
  induction l with
  | nil => rfl
  | cons h t ih =>
    rw [List.map_cons]
    by_cases hh : (h.1 == sid) = true
    · have heq : h.1 = sid := by simpa using hh
      have hh2 : (h.1 == sid2) = false := by simp [heq, hss]
      rw [if_pos hh]
      simp only [get_by_session_id, hss, hh2, Bool.false_eq_true, if_false]
      exact ih
    · rw [if_neg hh]
      by_cases hp : (h.1 == sid2) = true
      · simp only [get_by_session_id, hp, if_true]
      · have hp2 : (h.1 == sid2) = false := by simpa using hp
        simp only [get_by_session_id, hp2, Bool.false_eq_true, if_false]
        exact ih

theorem get_none_of_not_any (sid : String) :
    ∀ (l : List (String × SessionRecord)),
    l.any (fun p => p.1 == sid) = false →
    get_by_session_id l sid = none := by
  intro l
  induction l with
  | nil => intro _; rfl
  | cons h t ih =>
    intro hany
    rw [List.any_cons] at hany
    obtain ⟨h1, h2⟩ := Bool.or_eq_false_iff.mp hany
    simp only [get_by_session_id, h1, Bool.false_eq_true, if_false]
    exact ih h2

theorem get_append_single (sid : String) (r : SessionRecord) :
    ∀ (l : List (String × SessionRecord)),
    get_by_session_id l sid = none →
    get_by_session_id (l ++ [(sid, r)]) sid = some r := by
  intro l
  induction l with
  | nil => intro _; simp [get_by_session_id]
  | cons h t ih =>
    intro hget
    simp only [get_by_session_id] at hget
    by_cases hh : (h.1 == sid) = true
    · rw [if_pos hh] at hget
      cases hget
    · have hh2 : (h.1 == sid) = false := by simpa using hh
      rw [List.cons_append]
      simp only [get_by_session_id, hh2, Bool.false_eq_true, if_false] at hget ⊢
      exact ih hget

theorem get_append_other (sid sid2 : String) (r : SessionRecord) (hne : sid2 ≠ sid) :
    ∀ (l : List (String × SessionRecord)),
    get_by_session_id (l ++ [(sid, r)]) sid2 = get_by_session_id l sid2 := by
  have hss : (sid == sid2) = false := by
    simp only [beq_eq_false_iff_ne, ne_eq]
    exact fun h => hne h.symm
  intro l
  induction l with
  | nil => simp [get_by_session_id, hss]
  | cons h t ih =>
    rw [List.cons_append]
    by_cases hp : (h.1 == sid2) = true
    · simp only [get_by_session_id, hp, if_true]
    · have hp2 : (h.1 == sid2) = false := by simpa using hp
      simp only [get_by_session_id, hp2, Bool.false_eq_true, if_false]
      exact ih

theorem get_insert_self (l : List (String × SessionRecord)) (sid : String)
    (r : SessionRecord) :
    get_by_session_id (insertSession l sid r) sid = some r := by
  unfold insertSession
  by_cases hany : l.any (fun p => p.1 == sid) = true
  · rw [if_pos hany]
    exact get_map_replace sid r l hany
  · have hany2 : l.any (fun p => p.1 == sid) = false := Bool.eq_false_iff.mpr hany
    rw [hany2]
    simp only [Bool.false_eq_true, if_false]
    exact get_append_single sid r l (get_none_of_not_any sid l hany2)

theorem get_insert_other (l : List (String × SessionRecord)) (sid sid2 : String)
    (r : SessionRecord) (hne : sid2 ≠ sid) :
    get_by_session_id (insertSession l sid r) sid2 = get_by_session_id l sid2 := by
  unfold insertSession
  by_cases hany : l.any (fun p => p.1 == sid) = true
  · rw [if_pos hany]
    exact get_map_replace_other sid sid2 r hne l
  · have hany2 : l.any (fun p => p.1 == sid) = false := Bool.eq_false_iff.mpr hany
    rw [hany2]
    simp only [Bool.false_eq_true, if_false]
    exact get_append_other sid sid2 r hne l

theorem store_update_self (now : Int) (sessions : List (String × SessionRecord))
    (session_id : String) (state : SessionState) (cwd : String) :
    get_by_session_id (store_update now sessions session_id state cwd) session_id
      = some { session_id := session_id
               state := state
               cwd := cwd
               updated_at := now
               state_changed_at :=
                 match get_by_session_id sessions session_id with
                 | some r => if r.state == state then r.state_changed_at else now
                 | none => now
               working_on :=
                 (get_by_session_id sessions session_id).bind (fun r => r.working_on)
               transcript_path :=
                 (get_by_session_id sessions session_id).bind (fun r => r.transcript_path)
               permission_mode :=
                 (get_by_session_id sessions session_id).bind (fun r => r.permission_mode)
               project_dir :=
                 (get_by_session_id sessions session_id).bind (fun r => r.project_dir)
               last_event :=
                 (get_by_session_id sessions session_id).bind (fun r => r.last_event)
               active_subagent_count :=
                 ((get_by_session_id sessions session_id).map
                   (fun r => r.active_subagent_count)).getD 0 } := by
  unfold store_update
  exact get_insert_self sessions session_id _

/-- C9: `store_update` sets `updated_at := now`, carries `state_changed_at`
over iff the incoming state equals the stored one (setting it to `now`
otherwise, also when no record existed), carries every optional metadata
field over unchanged, and leaves every other session's record untouched. -/
theorem store_update_spec (now : Int) (sessions : List (String × SessionRecord))
    (session_id : String) (state : SessionState) (cwd : String) :
    (∃ r2, get_by_session_id (store_update now sessions session_id state cwd) session_id
        = some r2
      ∧ r2.session_id = session_id ∧ r2.state = state ∧ r2.cwd = cwd
      ∧ r2.updated_at = now
      ∧ (∀ r, get_by_session_id sessions session_id = some r →
          (r.state = state → r2.state_changed_at = r.state_changed_at)
          ∧ (r.state ≠ state → r2.state_changed_at = now)
          ∧ r2.working_on = r.working_on
          ∧ r2.transcript_path = r.transcript_path
          ∧ r2.permission_mode = r.permission_mode
          ∧ r2.project_dir = r.project_dir
          ∧ r2.last_event = r.last_event
          ∧ r2.active_subagent_count = r.active_subagent_count)
      ∧ (get_by_session_id sessions session_id = none → r2.state_changed_at = now))
    ∧ (∀ sid2, sid2 ≠ session_id →
        get_by_session_id (store_update now sessions session_id state cwd) sid2
          = get_by_session_id sessions sid2) := by
  constructor
  · refine ⟨_, store_update_self now sessions session_id state cwd,
      rfl, rfl, rfl, rfl, ?_, ?_⟩
    · intro r hr
      refine ⟨?_, ?_, ?_, ?_, ?_, ?_, ?_, ?_⟩ <;> simp only [hr, Option.some_bind, Option.map_some', Option.getD_some]
      · intro h
        simp [h]
      · intro h
        have : (r.state == state) = false := by
          simpa [beq_eq_false_iff_ne] using h
        simp [this]
    · intro hnone
      simp [hnone]
  · intro sid2 hne
    unfold store_update
    exact get_insert_other sessions session_id sid2 _ hne

/-- Witness for C9: updating session `s` leaves session `x` untouched. -/
theorem store_update_spec_witness :
    ("x" : String) ≠ "s"
    ∧ get_by_session_id (store_update 5 [] "s" SessionState.Working "/p") "x"
      = get_by_session_id [] "x" :=
  ⟨by decide,
   (store_update_spec 5 [] "s" SessionState.Working "/p").2 "x" (by decide)⟩

/-- C6 counterexample: `Waiting` is an "active" state per the claim, yet a
PreToolUse event with current state `Waiting` is not a heartbeat — the
code upserts the session to `Working`, changing its state. -/
theorem tool_use_waiting_counterexample :
    process_event HookEvent.PreToolUse (some SessionState.Waiting)
      = (HookAction.Upsert, some SessionState.Working, none)
    ∧ (apply_event 5 HookEvent.PreToolUse "s" "/p"
        [("s", ⟨"s", SessionState.Waiting, "/p", 0, 0,
          none, none, none, none, none, 0⟩)]).map
        (fun st => (get_by_session_id st "s").map (fun r => r.state))
      = some (some SessionState.Working)
    ∧ some (some SessionState.Working) ≠ some (some SessionState.Waiting) := by
  decide

/-- C6 amended: a PreToolUse/PostToolUse event is a heartbeat iff the
session's current state is exactly `Working` — it then refreshes the
record (`updated_at := now`) leaving state, `state_changed_at` and all
metadata unchanged; for every other current state, including the active
states `Waiting` and `Compacting`, the record is upserted to `Working`. -/
theorem tool_use_heartbeat_amended (now : Int) (event : HookEvent)
    (session_id cwd : String) (sessions : List (String × SessionRecord))
    (hev : event = HookEvent.PreToolUse
      ∨ ∃ tn fp, event = HookEvent.PostToolUse tn fp) :
    ∃ sessions2, apply_event now event session_id cwd sessions = some sessions2
      ∧ (∀ r, get_by_session_id sessions session_id = some r →
          r.state = SessionState.Working →
          ∃ r2, get_by_session_id sessions2 session_id = some r2
            ∧ r2.state = SessionState.Working
            ∧ r2.state_changed_at = r.state_changed_at
            ∧ r2.updated_at = now
            ∧ r2.working_on = r.working_on
            ∧ r2.transcript_path = r.transcript_path
            ∧ r2.permission_mode = r.permission_mode
            ∧ r2.project_dir = r.project_dir
            ∧ r2.last_event = r.last_event
            ∧ r2.active_subagent_count = r.active_subagent_count)
      ∧ ((∀ r, get_by_session_id sessions session_id = some r →
            r.state ≠ SessionState.Working) →
          ∃ r2, get_by_session_id sessions2 session_id = some r2
            ∧ r2.state = SessionState.Working
            ∧ r2.state_changed_at = now
            ∧ r2.updated_at = now) := by
  have main : ∀ fa : Option (String × String),
      ∃ sessions2,
        (match tool_use_action
            ((get_by_session_id sessions session_id).map (fun r => r.state)) fa with
         | (HookAction.Delete, _, _) => none
         | (HookAction.Skip, _, _) => some sessions
         | (_, new_state, _) =>
           some (store_update now sessions session_id
             (match new_state with
              | some s => s
              | none =>
                match get_by_session_id sessions session_id with
                | some r => r.state
                | none => SessionState.Ready) cwd))
          = some sessions2
        ∧ (∀ r, get_by_session_id sessions session_id = some r →
            r.state = SessionState.Working →
            ∃ r2, get_by_session_id sessions2 session_id = some r2
              ∧ r2.state = SessionState.Working
              ∧ r2.state_changed_at = r.state_changed_at
              ∧ r2.updated_at = now
              ∧ r2.working_on = r.working_on
              ∧ r2.transcript_path = r.transcript_path
              ∧ r2.permission_mode = r.permission_mode
              ∧ r2.project_dir = r.project_dir
              ∧ r2.last_event = r.last_event
              ∧ r2.active_subagent_count = r.active_subagent_count)
        ∧ ((∀ r, get_by_session_id sessions session_id = some r →
              r.state ≠ SessionState.Working) →
            ∃ r2, get_by_session_id sessions2 session_id = some r2
              ∧ r2.state = SessionState.Working
              ∧ r2.state_changed_at = now
              ∧ r2.updated_at = now) := by
    intro fa
    by_cases hw : ((get_by_session_id sessions session_id).map (fun r => r.state))
        = some SessionState.Working
    · have htu : tool_use_action
          ((get_by_session_id sessions session_id).map (fun r => r.state)) fa
          = (HookAction.Heartbeat, none, fa) := by
        simp [tool_use_action, hw]
      rw [htu]
      cases hcur : get_by_session_id sessions session_id with
      | none => rw [hcur] at hw; cases hw
      | some r =>
        refine ⟨_, rfl, ?_, ?_⟩
        · intro r0 hr0 hwork
          cases hr0
          refine ⟨_, store_update_self now sessions session_id r.state cwd, ?_⟩
          simp [hcur, hwork]
        · intro hno
          have hrw : r.state = SessionState.Working := by
            rw [hcur] at hw
            simpa using hw
          exact absurd hrw (hno r rfl)
    · have htu : tool_use_action
          ((get_by_session_id sessions session_id).map (fun r => r.state)) fa
          = (HookAction.Upsert, some SessionState.Working, fa) := by
        simp only [tool_use_action]
        rw [if_neg]
        simpa using hw
      rw [htu]
      refine ⟨_, rfl, ?_, ?_⟩
      · intro r hr hwork
        have : ((get_by_session_id sessions session_id).map (fun r => r.state))
            = some SessionState.Working := by
          simp [hr, hwork]
        exact absurd this hw
      · intro hno
        refine ⟨_, store_update_self now sessions session_id SessionState.Working cwd, ?_⟩
        refine ⟨rfl, ?_, rfl⟩
        cases hcur : get_by_session_id sessions session_id with
        | none => simp
        | some r =>
          have : (r.state == SessionState.Working) = false := by
            simpa [beq_eq_false_iff_ne] using hno r hcur
          simp [this]
  rcases hev with rfl | ⟨tn, fp, rfl⟩
  · exact main none
  · exact main (extract_file_activity tn fp)

/-- Witness for C6's amended theorem at a concrete store holding a
Waiting session. -/
theorem tool_use_heartbeat_amended_witness :
    (HookEvent.PreToolUse = HookEvent.PreToolUse
      ∨ ∃ tn fp, HookEvent.PreToolUse = HookEvent.PostToolUse tn fp)
    ∧ ∃ sessions2,
        apply_event 7 HookEvent.PreToolUse "s" "/p"
          [("s", ⟨"s", SessionState.Waiting, "/p", 0, 0,
            none, none, none, none, none, 0⟩)] = some sessions2
        ∧ (∀ r, get_by_session_id
              [("s", ⟨"s", SessionState.Waiting, "/p", 0, 0,
                none, none, none, none, none, 0⟩)] "s" = some r →
            r.state = SessionState.Working →
            ∃ r2, get_by_session_id sessions2 "s" = some r2
              ∧ r2.state = SessionState.Working
              ∧ r2.state_changed_at = r.state_changed_at
              ∧ r2.updated_at = 7
              ∧ r2.working_on = r.working_on
              ∧ r2.transcript_path = r.transcript_path
              ∧ r2.permission_mode = r.permission_mode
              ∧ r2.project_dir = r.project_dir
              ∧ r2.last_event = r.last_event
              ∧ r2.active_subagent_count = r.active_subagent_count)
        ∧ ((∀ r, get_by_session_id
              [("s", ⟨"s", SessionState.Waiting, "/p", 0, 0,
                none, none, none, none, none, 0⟩)] "s" = some r →
              r.state ≠ SessionState.Working) →
            ∃ r2, get_by_session_id sessions2 "s" = some r2
              ∧ r2.state = SessionState.Working
              ∧ r2.state_changed_at = 7
              ∧ r2.updated_at = 7) :=
  ⟨Or.inl rfl,
   tool_use_heartbeat_amended 7 HookEvent.PreToolUse "s" "/p"
     [("s", ⟨"s", SessionState.Waiting, "/p", 0, 0,
       none, none, none, none, none, 0⟩)] (Or.inl rfl)⟩

/-! ### Serialization round-trip lemmas -/

theorem parseState_ser (s : SessionState) : parseState (serState s) = some s := by
  cases s <;> rfl

theorem parseOptStrField_ser (o : Option String) :
    parseOptStrField (some (serOptStr o)) = some o := by
  cases o <;> rfl

theorem parseOptIntField_ser (o : Option Int) :
    parseOptIntField (some (serOptInt o)) = some o := by
  cases o <;> rfl

theorem parseOptBoolField_ser (o : Option Bool) :
    parseOptBoolField (some (serOptBool o)) = some o := by
  cases o <;> rfl

theorem parseCountField_ser (n : Nat) :
    parseCountField (some (.jnum (n : Int))) = some n := by
  simp [parseCountField, Int.toNat_natCast, Int.natCast_nonneg]

theorem deserializeLastEvent_ser (ev : LastEvent) :
    deserializeLastEvent (serLastEvent ev) = some ev := by
  obtain ⟨f1, f2, f3, f4, f5, f6, f7, f8, f9, f10, f11⟩ := ev
  simp [serLastEvent, deserializeLastEvent, jLookup, parseOptStrField_ser,
    parseOptIntField_ser, parseOptBoolField_ser]

theorem parseOptEventField_ser (o : Option LastEvent) :
    parseOptEventField (some (match o with
      | none => Jval.jnull
      | some ev => serLastEvent ev)) = some o := by
  cases o with
  | none => rfl
  | some ev =>
    have hred : parseOptEventField (some (serLastEvent ev))
        = (deserializeLastEvent (serLastEvent ev)).map some := by
      rw [serLastEvent]
      rfl
    rw [hred, deserializeLastEvent_ser]
    rfl

theorem deserializeRecord_ser (r : SessionRecord) :
    deserializeRecord (serializeRecord r) = some r := by
  obtain ⟨sid, st, cwd, u, sca, wo, tp, pm, pd, le, cnt⟩ := r
  simp [serializeRecord, deserializeRecord, jLookup, parseState_ser,
    parseOptStrField_ser, parseOptEventField_ser, parseCountField_ser]

theorem deserializeSessions_ser :
    ∀ l : List (String × SessionRecord),
    deserializeSessions (serializeSessions l) = some l := by
  intro l
  induction l with
  | nil => rfl
  | cons h t ih =>
    obtain ⟨k, r⟩ := h
    show deserializeSessions ((k, serializeRecord r) :: serializeSessions t) = _
    simp [deserializeSessions, deserializeRecord_ser, ih]

/-- C8: saving a file-backed store and loading the written document back
yields the same sessions map. -/
theorem store_save_load_roundtrip (s : StateStore) (path : String)
    (hpath : s.file_path = some path) :
    ∃ v, store_save s = some v
      ∧ (store_load path (FileContent.json v)).sessions = s.sessions := by
  obtain ⟨sessions, fp⟩ := s
  simp only [StateStore.file_path] at hpath
  subst hpath
  refine ⟨serializeStoreFile sessions, rfl, ?_⟩
  simp [store_load, serializeStoreFile, deserializeStoreFile, jLookup,
    deserializeSessions_ser]

/-- Witness for C8: a one-session store with every optional field
populated survives the round trip. -/
theorem store_save_load_roundtrip_witness :
    (StateStore.mk
      [("s", ⟨"s", SessionState.Working, "/p", 1, 2, some "w", some "t", some "m",
        some "d", some ⟨some "e", some 3, some "tn", some "tid", some "nt", some "tr",
          some "src", some "rsn", some true, some "aid", some "atp"⟩, 4⟩)]
      (some "p")).file_path = some "p"
    ∧ ∃ v, store_save (StateStore.mk
        [("s", ⟨"s", SessionState.Working, "/p", 1, 2, some "w", some "t", some "m",
          some "d", some ⟨some "e", some 3, some "tn", some "tid", some "nt", some "tr",
            some "src", some "rsn", some true, some "aid", some "atp"⟩, 4⟩)]
        (some "p")) = some v
      ∧ (store_load "p" (FileContent.json v)).sessions
        = [("s", ⟨"s", SessionState.Working, "/p", 1, 2, some "w", some "t", some "m",
          some "d", some ⟨some "e", some 3, some "tn", some "tid", some "nt", some "tr",
            some "src", some "rsn", some true, some "aid", some "atp"⟩, 4⟩)] :=
  ⟨rfl,
   store_save_load_roundtrip
     (StateStore.mk
       [("s", ⟨"s", SessionState.Working, "/p", 1, 2, some "w", some "t", some "m",
         some "d", some ⟨some "e", some 3, some "tn", some "tid", some "nt", some "tr",
           some "src", some "rsn", some true, some "aid", some "atp"⟩, 4⟩)]
       (some "p")) "p" rfl⟩
